import Mathlib

/-!
Verification of the monthly salary engine of the office-management backend
(`app/salary/engine.py`), against its data model (`app/salary/models.py`,
`app/employees/models.py`, `app/leaves/models.py`, `app/attendance/models.py`).

Dates are embedded as proleptic-Gregorian ordinals (Python's
`date.toordinal`: day 1 is 0001-01-01, a Monday).  Python `Decimal` values
are embedded as rationals; `float` conversion is embedded as rounding to the
nearest binary64 value (round-half-even on a 53-bit significand).  The
database is a record of lists; SQL `NULL` comparisons exclude the row, as in
MySQL.
-/

namespace OfficeMgmt

/-! ## Calendar utilities (`first_last_day`, `count_working_days`) -/

/-- Gregorian leap year, as `calendar.isleap`. -/
def isLeap (y : ℕ) : Bool := y % 4 == 0 && (y % 100 != 0 || y % 400 == 0)

/-- Number of days of month `m` of year `y` (`calendar.monthrange(y, m)[1]`). -/
def daysInMonth (y m : ℕ) : ℕ :=
  if m = 2 then (if isLeap y then 29 else 28)
  else if m = 4 ∨ m = 6 ∨ m = 9 ∨ m = 11 then 30 else 31

/-- Days in year `y` strictly before month `m`. -/
def daysBeforeMonth (y m : ℕ) : ℕ :=
  (List.range (m - 1)).foldl (fun acc k => acc + daysInMonth y (k + 1)) 0

/-- Python `date(y, m, d).toordinal()`: 0001-01-01 is day 1. -/
def toOrdinal (y m d : ℕ) : ℕ :=
  365 * (y - 1) + (y - 1) / 4 + (y - 1) / 400 - (y - 1) / 100
    + daysBeforeMonth y m + d

/-- Python `date.weekday()` on an ordinal: Monday is 0 (ordinal 1 is a Monday). -/
def weekday (o : ℕ) : ℕ := (o + 6) % 7

/-- `first_last_day(year, month)`: ordinals of the first and last day of the month. -/
def first_last_day (year month : ℕ) : ℕ × ℕ :=
  (toOrdinal year month 1, toOrdinal year month (daysInMonth year month))

/-- The `while cur <= end` loop of `count_working_days`, with `n` days left to scan
starting at ordinal `cur`. -/
def countWDGo : ℕ → ℕ → ℕ
  | 0, _ => 0
  | n + 1, cur => (if weekday cur < 5 then 1 else 0) + countWDGo n (cur + 1)

/-- `count_working_days(start, end)`: weekdays (Mon–Fri) in `[start, end]` inclusive. -/
def count_working_days (s e : ℕ) : ℕ := countWDGo (e + 1 - s) s

/-! ## Decimal and float arithmetic

The engine computes with `Decimal` and `quantize(Decimal("0.01"), ROUND_HALF_UP)`,
then assigns `float(...)` to `DECIMAL(10,2)` columns; `db.refresh` reads the
column value back. -/

/-- The floor `⌊q⌋` of a rational, computed by Euclidean division of the
numerator by the (positive) denominator. -/
def ratFloor (q : ℚ) : ℤ := q.num / (q.den : ℤ)

/-- `2 ^ e` in ℚ for an integer exponent `e`, computed with `Nat.pow`. -/
def pow2 (e : ℤ) : ℚ :=
  match e with
  | .ofNat n => ((2 ^ n : ℕ) : ℚ)
  | .negSucc n => 1 / ((2 ^ (n + 1) : ℕ) : ℚ)

/-- Round a rational to an integer, halves away from zero
(`decimal.ROUND_HALF_UP` at exponent 0). -/
def roundHalfUpZ (x : ℚ) : ℤ :=
  if 0 ≤ x then ratFloor (x + 1 / 2) else -(ratFloor (-x + 1 / 2))

/-- `Decimal.quantize(Decimal("0.01"), rounding=ROUND_HALF_UP)`. -/
def quantize2 (q : ℚ) : ℚ := (roundHalfUpZ (q * 100) : ℚ) / 100

/-- Round a rational to an integer, halves to even (IEEE-754 default rounding). -/
def roundHalfEvenZ (x : ℚ) : ℤ :=
  let n := ratFloor x
  if x - n < 1 / 2 then n
  else if 1 / 2 < x - n then n + 1
  else if n % 2 = 0 then n else n + 1

/-- Fuel-driven binary logarithm: `natLog2Go fuel n` halves `n` until it drops
below 2 (`fuel ≥ n` suffices). -/
def natLog2Go : ℕ → ℕ → ℕ
  | 0, _ => 0
  | fuel + 1, n => if 2 ≤ n then natLog2Go fuel (n / 2) + 1 else 0

/-- `⌊log₂ n⌋` for `n ≥ 1` (and 0 at 0). -/
def natLog2 (n : ℕ) : ℕ := natLog2Go n n

/-- `⌊log₂ a⌋` for a positive rational, from `natLog2` of numerator and
denominator with a one-step correction. -/
def floorLog2 (a : ℚ) : ℤ :=
  let e0 : ℤ := (natLog2 a.num.natAbs : ℤ) - (natLog2 a.den : ℤ)
  if pow2 e0 ≤ a then e0 else e0 - 1

/-- Python `float(x)` on an exact (rational) value: the nearest binary64 value,
round-half-even on a 53-bit significand.  Overflow and subnormals are not
modelled (all monetary values here are far inside the normal range). -/
def float64round (q : ℚ) : ℚ :=
  if q = 0 then 0
  else
    let a := |q|
    let e := floorLog2 a
    let m := roundHalfEvenZ (a * pow2 (52 - e))
    (if q < 0 then -1 else 1) * ((m : ℚ) * pow2 (e - 52))

/-- Value held by a `DECIMAL(10,2)` column after the engine assigns
`float(v)` and commits: the float is rounded by the database to two decimal
places (MySQL float→DECIMAL conversion; the values stored here are never at a
rounding tie, so the tie rule is immaterial).  `db.refresh` then reads this
value back into the row. -/
def column_decimal (q : ℚ) : ℚ := quantize2 (float64round q)

/-! ## Data model (`models.py`) -/

/-- Row of `attendance1` (`app/attendance/models.py`); `date` is nullable. -/
structure Attendance where
  employee_id : ℕ
  date : Option ℕ
  status : String
deriving DecidableEq

/-- Row of `leaves` (`app/leaves/models.py`); dates nullable. -/
structure Leave where
  employee_id : ℕ
  leave_type : Option String
  from_date : Option ℕ
  to_date : Option ℕ
  status : String
deriving DecidableEq

/-- Row of `employee1` (`app/employees/models.py`); `salary` is a nullable
`DECIMAL(10,2)` column (only the fields the engine reads are embedded). -/
structure Employee where
  id : ℕ
  email : Option String
  salary : Option ℚ
deriving DecidableEq

/-- Row of `salary` (`app/salary/models.py`); money columns are `DECIMAL(10,2)`. -/
structure Salary where
  id : ℕ
  employee_id : ℕ
  month : String
  base_salary : ℚ
  deductions : ℚ
  net_salary : ℚ
  slip_file : Option String
deriving DecidableEq

/-- The database: one list per table, plus the next autoincrement id for
`salary`. -/
structure DB where
  attendance : List Attendance
  leaves : List Leave
  employees : List Employee
  salaries : List Salary
  next_id : ℕ
deriving DecidableEq

/-! ## Attendance and leave aggregation (`calculate_for_employee`, lines 38–65) -/

/-- Filter of the attendance count query: same employee, `date` in
`[first, last]` (a SQL `NULL` date fails both comparisons), status `PRESENT`. -/
def attendanceFilter (eid first last : ℕ) (a : Attendance) : Bool :=
  a.employee_id == eid
    && (match a.date with | some d => decide (first ≤ d ∧ d ≤ last) | none => false)
    && a.status == "PRESENT"

/-- `att_count`: the `.count()` of the attendance query. -/
def att_count (db : DB) (eid first last : ℕ) : ℕ :=
  (db.attendance.filter (attendanceFilter eid first last)).length

/-- Filter of the leave query: same employee, `status == "Approved"`,
`from_date <= last` and `to_date >= first` (SQL `NULL` comparisons exclude the
row). -/
def leaveFilter (eid first last : ℕ) (lv : Leave) : Bool :=
  lv.employee_id == eid && lv.status == "Approved"
    && (match lv.from_date with | some f => decide (f ≤ last) | none => false)
    && (match lv.to_date with | some t => decide (first ≤ t) | none => false)

/-- Python `str.lower()`, character by character (the leave-type categories
compared against are ASCII, where `Char.toLower` agrees with Python). -/
def py_lower (s : String) : String := String.mk (s.data.map Char.toLower)

/-- `(lv.leave_type or "").lower() in ("unpaid", "lop", "without pay")`. -/
def isUnpaidType (lt : Option String) : Bool :=
  ["unpaid", "lop", "without pay"].contains (py_lower (lt.getD ""))

/-- The `while cur <= e` loop over one leave's day range: `n` days left to scan
starting at ordinal `cur`, accumulating `(leave_days, unpaid_leave_days)`. -/
def leaveWalkGo (first last : ℕ) (unpaid : Bool) : ℕ → ℕ → ℕ × ℕ → ℕ × ℕ
  | 0, _, acc => acc
  | n + 1, cur, (ld, uld) =>
    leaveWalkGo first last unpaid n (cur + 1)
      (if first ≤ cur ∧ cur ≤ last ∧ weekday cur < 5 then
        (ld + 1, if unpaid then uld + 1 else uld)
      else (ld, uld))

/-- Contribution of one leave row to `(leave_days, unpaid_leave_days)`:
`s = lv.from_date`, `e = lv.to_date or s`, walk `s..e`.  (A `none` `from_date`
cannot reach this point: the query filter already excluded it.) -/
def walk_leave (first last : ℕ) (lv : Leave) : ℕ × ℕ :=
  match lv.from_date with
  | none => (0, 0)
  | some s =>
    let e := lv.to_date.getD s
    leaveWalkGo first last (isUnpaidType lv.leave_type) (e + 1 - s) s (0, 0)

/-- The leave loop of `calculate_for_employee`: accumulate the walk of every
approved leave overlapping the month. -/
def collect_leave_days (db : DB) (eid first last : ℕ) : ℕ × ℕ :=
  (db.leaves.filter (leaveFilter eid first last)).foldl
    (fun acc lv =>
      let w := walk_leave first last lv
      (acc.1 + w.1, acc.2 + w.2))
    (0, 0)

/-! ## Salary computation (`calculate_for_employee`, lines 67–101) -/

/-- Lines 67–68: `paid_days = att_count + max(0, leave_days - unpaid_leave_days)`
then `paid_days = min(paid_days, total_working_days)` (ℕ subtraction is the
`max(0, ·-·)` of Python ints). -/
def paid_days_calc (att ld uld total : ℕ) : ℕ :=
  min (att + (ld - uld)) total

/-- The monetary results of lines 72–81, before persistence. -/
structure CoreResult where
  deduction : ℚ
  earned : ℚ
  net_salary : ℚ
deriving DecidableEq

/-- Lines 72–81: pro-rated deduction and earned pay (guarded division),
then `net = earned - deduction` clamped at 0. -/
def salary_core (base : ℚ) (total paid uld : ℕ) : CoreResult :=
  let p :=
    if 0 < total then
      (quantize2 (base * (uld : ℚ) / (total : ℚ)),
       quantize2 (base * (paid : ℚ) / (total : ℚ)))
    else ((0 : ℚ), base)
  let net0 := quantize2 (p.2 - p.1)
  ⟨p.1, p.2, if net0 < 0 then 0 else net0⟩

/-- `f"{year}-{str(month).zfill(2)}"`. -/
def month_str (year month : ℕ) : String :=
  let s := toString month
  toString year ++ "-" ++ (if s.length < 2 then "0" ++ s else s)

/-- Replace the first element satisfying `p` (the row returned by
`.first()`) with `v`; other rows are untouched. -/
def replaceFirst (p : Salary → Bool) (v : Salary) : List Salary → List Salary
  | [] => []
  | r :: rs => if p r then v :: rs else r :: replaceFirst p v rs

/-- Filter of the `Salary` lookup `filter_by(employee_id=..., month=...)`. -/
def salaryKey (eid : ℕ) (mstr : String) (r : Salary) : Bool :=
  r.employee_id == eid && r.month == mstr

/-- Lines 34–81 of `calculate_for_employee`: the month bounds, working-day
count, attendance and leave aggregation, paid days, base salary
(`getattr(employee, "salary", 0) or 0`, null degrading to 0) and the monetary
results, before any persistence. -/
def engine_figures (db : DB) (emp : Employee) (year month : ℕ) : ℚ × CoreResult :=
  let fl := first_last_day year month
  let total := count_working_days fl.1 fl.2
  let att := att_count db emp.id fl.1 fl.2
  let lds := collect_leave_days db emp.id fl.1 fl.2
  let paid := paid_days_calc att lds.1 lds.2 total
  let base := emp.salary.getD 0
  (base, salary_core base total paid lds.2)

/-- `calculate_for_employee(db, employee, year, month)`: computes the month's
figures, upserts the `(employee_id, month)` salary row (lines 83–99), commits
and refreshes it (so the money fields hold the `DECIMAL(10,2)` column values),
and returns the row together with the post-commit database. -/
def calculate_for_employee (db : DB) (emp : Employee) (year month : ℕ) :
    Salary × DB :=
  let bc := engine_figures db emp year month
  let base := bc.1
  let core := bc.2
  let mstr := month_str year month
  match db.salaries.find? (salaryKey emp.id mstr) with
  | some old =>
    let row := { old with
      base_salary := column_decimal base
      deductions := column_decimal core.deduction
      net_salary := column_decimal core.net_salary }
    (row, { db with salaries := replaceFirst (salaryKey emp.id mstr) row db.salaries })
  | none =>
    let row : Salary :=
      { id := db.next_id
        employee_id := emp.id
        month := mstr
        base_salary := column_decimal base
        deductions := column_decimal core.deduction
        net_salary := column_decimal core.net_salary
        slip_file := none }
    (row, { db with salaries := db.salaries ++ [row], next_id := db.next_id + 1 })

/-! ## Batch runner (`run_engine_for_month`) -/

/-- Return shapes accepted from the `pdf_generator` callback: a
`(filename, path)` tuple, raw bytes, or any other value coerced via `str()`. -/
inductive PdfResult where
  | pair (fname path : String)
  | bytes (content : List ℕ)
  | other (s : String)

/-- Observable side actions of the runner: the byte-branch file write and each
email-notification attempt (the call to `email_sender`, made whether or not
the sender then fails). -/
inductive Event where
  | fileWrite (path : String)
  | emailAttempt (toAddr subject body attachment : String)
deriving DecidableEq

/-- A `pdf_generator` callback; `Except.error` models a raised exception. -/
abbrev PdfGen := Salary → Employee → Except Unit PdfResult

/-- An `email_sender(to_email, subject, body, attachment_path)` callback. -/
abbrev EmailSender := String → String → String → String → Except Unit Unit

/-- `os.path.join(os.path.dirname(__file__), "..", "static", "uploads",
"salary_slips", fname)`. -/
def slips_path (fname : String) : String :=
  "app/salary/../static/uploads/salary_slips/" ++ fname

/-- One iteration of the runner's employee loop: compute-and-persist the
salary, then — guarded by `generate_pdf and callable(pdf_generator)` and
wrapped in `try: ... except: pass` — generate the slip, record its filename on
`slip_file`, and attempt the email notification.  State is
`(db, clock, events)`; `clock` models `int(time.time())` for the bytes-branch
filename.  The bytes-branch file write is modelled as always succeeding. -/
def run_step (year month : ℕ) (generate_pdf : Bool) (pdfg : Option PdfGen)
    (es : Option EmailSender) (st : DB × ℕ × List Event) (emp : Employee) :
    Salary × DB × ℕ × List Event :=
  let db := st.1
  let clock := st.2.1
  let evs := st.2.2
  let sd := calculate_for_employee db emp year month
  let s := sd.1
  let db1 := sd.2
  match generate_pdf, pdfg with
  | true, some g =>
    match g s emp with
    | .error _ => (s, db1, clock, evs)
    | .ok res =>
      let fpce : String × String × ℕ × List Event :=
        match res with
        | .pair fname path => (fname, path, clock, evs)
        | .bytes _ =>
          let fname := "salary_" ++ toString s.id ++ "_" ++ toString clock ++ ".pdf"
          (fname, slips_path fname, clock + 1, evs ++ [.fileWrite (slips_path fname)])
        | .other str0 => (str0, slips_path str0, clock, evs)
      let path := fpce.2.1
      let s1 := { s with slip_file := some fpce.1 }
      let db2 := { db1 with
        salaries := replaceFirst (fun r => r.id == s.id) s1 db1.salaries }
      match es, emp.email with
      | some sender, some addr =>
        if addr != "" then
          let subject := "Salary Slip for " ++ s1.month
          let body := "Please find your salary slip attached."
          -- the call itself is the notification attempt; a failure of the
          -- sender is swallowed by the inner `try/except: pass`
          let _ := sender addr subject body path
          (s1, db2, fpce.2.2.1, fpce.2.2.2 ++ [.emailAttempt addr subject body path])
        else (s1, db2, fpce.2.2.1, fpce.2.2.2)
      | _, _ => (s1, db2, fpce.2.2.1, fpce.2.2.2)
  | _, _ => (s, db1, clock, evs)

/-- The runner's fold state: results so far, database, clock, event log. -/
abbrev RunState := List Salary × DB × ℕ × List Event

/-- One turn of the runner's `for emp in employees` loop as a fold step:
run `run_step` on the current database state and append the returned row to
`results`. -/
def engine_fold (year month : ℕ) (generate_pdf : Bool) (pdfg : Option PdfGen)
    (es : Option EmailSender) (acc : RunState) (emp : Employee) : RunState :=
  let r := run_step year month generate_pdf pdfg es (acc.2.1, acc.2.2.1, acc.2.2.2) emp
  (acc.1 ++ [r.1], r.2.1, r.2.2.1, r.2.2.2)

/-- `run_engine_for_month(db, year, month, generate_pdf, pdf_generator,
email_sender)`: snapshot all employees, run the loop body for each in
iteration order, and return the collected results with the final state. -/
def run_engine_for_month (db : DB) (year month : ℕ) (generate_pdf : Bool)
    (pdfg : Option PdfGen) (es : Option EmailSender) (clock : ℕ) : RunState :=
  db.employees.foldl (engine_fold year month generate_pdf pdfg es) ([], db, clock, [])

/-! ## Specification-side definitions -/

/-- Whether a leave row's own `[from_date, to_date or from_date]` range covers
day `d` (for comparison with the engine's per-request counting). -/
def leaveCovers (lv : Leave) (d : ℕ) : Bool :=
  match lv.from_date with
  | some s => decide (s ≤ d ∧ d ≤ lv.to_date.getD s)
  | none => false

/-- Number of distinct working days in `[first, last]` covered by at least one
of the leave rows the engine considers. -/
def distinct_leave_working_days (db : DB) (eid first last : ℕ) : ℕ :=
  ((Finset.Icc first last).filter (fun d =>
    (decide (weekday d < 5)
      && (db.leaves.filter (leaveFilter eid first last)).any
           (fun lv => leaveCovers lv d)) = true)).card

/-! ## Basic lemmas -/

/-- Euclidean division of numerator by denominator computes the floor. -/
theorem ratFloor_eq_floor (q : ℚ) : ratFloor q = ⌊q⌋ := Rat.floor_def.symm

/-- `pow2` agrees with the integer power of 2 in ℚ. -/
theorem pow2_eq_zpow (e : ℤ) : pow2 e = (2 : ℚ) ^ e := by
  cases e with
  | ofNat n =>
    show ((2 ^ n : ℕ) : ℚ) = (2 : ℚ) ^ (n : ℤ)
    rw [zpow_natCast]
    push_cast
    ring
  | negSucc n =>
    show 1 / ((2 ^ (n + 1) : ℕ) : ℚ) = (2 : ℚ) ^ (Int.negSucc n)
    have h1 : ((2 ^ (n + 1) : ℕ) : ℚ) = (2 : ℚ) ^ ((n + 1 : ℕ) : ℤ) := by
      rw [zpow_natCast]
      push_cast
      ring
    have h2 : (Int.negSucc n) = -((n + 1 : ℕ) : ℤ) := by
      rw [Int.negSucc_eq]
      push_cast
      ring
    rw [h1, h2, zpow_neg, one_div]

theorem pow2_pos (e : ℤ) : 0 < pow2 e := by
  rw [pow2_eq_zpow]
  exact zpow_pos (by norm_num) e

theorem roundHalfUpZ_nonneg {x : ℚ} (hx : 0 ≤ x) : 0 ≤ roundHalfUpZ x := by
  unfold roundHalfUpZ
  rw [if_pos hx, ratFloor_eq_floor]
  exact Int.floor_nonneg.mpr (by linarith)

theorem quantize2_nonneg {q : ℚ} (hq : 0 ≤ q) : 0 ≤ quantize2 q := by
  unfold quantize2
  have h : (0 : ℚ) ≤ (roundHalfUpZ (q * 100) : ℚ) := by
    exact_mod_cast roundHalfUpZ_nonneg (by positivity)
  exact div_nonneg h (by norm_num)

theorem roundHalfEvenZ_nonneg {x : ℚ} (hx : 0 ≤ x) : 0 ≤ roundHalfEvenZ x := by
  unfold roundHalfEvenZ
  rw [ratFloor_eq_floor]
  have h := Int.floor_nonneg.mpr hx
  dsimp only
  split_ifs <;> omega

theorem float64round_nonneg {q : ℚ} (hq : 0 ≤ q) : 0 ≤ float64round q := by
  unfold float64round
  dsimp only
  split_ifs with h0 hneg
  · exact le_refl 0
  · linarith
  · have hm : 0 ≤ roundHalfEvenZ (|q| * pow2 (52 - floorLog2 |q|)) :=
      roundHalfEvenZ_nonneg (mul_nonneg (abs_nonneg q) (pow2_pos _).le)
    have hm' : (0 : ℚ) ≤ (roundHalfEvenZ (|q| * pow2 (52 - floorLog2 |q|)) : ℚ) := by
      exact_mod_cast hm
    rw [one_mul]
    exact mul_nonneg hm' (pow2_pos _).le

theorem column_decimal_nonneg {q : ℚ} (hq : 0 ≤ q) : 0 ≤ column_decimal q :=
  quantize2_nonneg (float64round_nonneg hq)

theorem salary_core_net_nonneg (base : ℚ) (total paid uld : ℕ) :
    0 ≤ (salary_core base total paid uld).net_salary := by
  unfold salary_core
  dsimp only
  split_ifs <;> linarith

/-- The money fields of the row returned by `calculate_for_employee` are the
column values of the computed figures, in both the update and insert branch. -/
theorem calc_row_money (db : DB) (emp : Employee) (year month : ℕ) :
    (calculate_for_employee db emp year month).1.base_salary
        = column_decimal (engine_figures db emp year month).1
      ∧ (calculate_for_employee db emp year month).1.deductions
        = column_decimal (engine_figures db emp year month).2.deduction
      ∧ (calculate_for_employee db emp year month).1.net_salary
        = column_decimal (engine_figures db emp year month).2.net_salary := by
  unfold calculate_for_employee
  cases h : db.salaries.find? (salaryKey emp.id (month_str year month)) <;>
    simp [h]

theorem engine_figures_net_nonneg (db : DB) (emp : Employee) (year month : ℕ) :
    0 ≤ (engine_figures db emp year month).2.net_salary := by
  unfold engine_figures
  exact salary_core_net_nonneg _ _ _ _

/-! ## Claims -/

/-- C1: for all aggregated inputs, the engine's paid-days value is
`min(totalWorkingDays, presentDays + max(0, leaveDays - unpaidLeaveDays))`,
and in particular never exceeds the month's working-day count. -/
theorem paid_days_formula_and_cap (att ld uld total : ℕ) :
    (paid_days_calc att ld uld total : ℤ)
        = min (total : ℤ) ((att : ℤ) + max 0 ((ld : ℤ) - (uld : ℤ)))
      ∧ paid_days_calc att ld uld total ≤ total := by
  unfold paid_days_calc
  constructor
  · omega
  · exact min_le_right _ _

/-- C9: with zero working days in the month the guarded branch is not taken:
the deduction is exactly 0 and earned pay is exactly the base salary. -/
theorem zero_working_days_no_division (base : ℚ) (total paid uld : ℕ)
    (h : total = 0) :
    (salary_core base total paid uld).deduction = 0
      ∧ (salary_core base total paid uld).earned = base := by
  subst h
  unfold salary_core
  norm_num

/-- Witness for C9 at `base = 30000`, `total = 0`. -/
theorem zero_working_days_no_division_witness :
    (salary_core 30000 0 17 4).deduction = 0
      ∧ (salary_core 30000 0 17 4).earned = 30000 :=
  zero_working_days_no_division 30000 0 17 4 rfl

/-- C5: the persisted net salary is never negative, for every database,
employee and month. -/
theorem net_salary_nonneg (db : DB) (emp : Employee) (year month : ℕ) :
    0 ≤ (calculate_for_employee db emp year month).1.net_salary := by
  rw [(calc_row_money db emp year month).2.2]
  exact column_decimal_nonneg (engine_figures_net_nonneg db emp year month)

/-- Employee of the C10 instance. -/
def emp10 : Employee := { id := 1, email := none, salary := some 2200 }

/-- Database of the C10 instance: two approved unpaid-type leave requests of
the same employee both covering only Monday 2025-09-01 (ordinal 739495). -/
def db10 : DB :=
  { attendance := []
    leaves :=
      [ { employee_id := 1, leave_type := some "Unpaid", from_date := some 739495,
          to_date := some 739495, status := "Approved" },
        { employee_id := 1, leave_type := some "LOP", from_date := some 739495,
          to_date := some 739495, status := "Approved" } ]
    employees := [emp10]
    salaries := []
    next_id := 1 }

/-- C10: the leave aggregation does not de-duplicate days across leave
requests.  In September 2025 (bounds 739495–739524, 22 working days) the two
overlapping single-day unpaid leaves of `db10` count as 2 leave days and 2
unpaid days although only 1 distinct working day is covered, and the persisted
deduction is 2200·2/22 = 200 instead of the 2200·1/22 = 100 that distinct-day
costing would give. -/
theorem leave_days_not_deduplicated :
    first_last_day 2025 9 = (739495, 739524)
      ∧ collect_leave_days db10 1 739495 739524 = (2, 2)
      ∧ distinct_leave_working_days db10 1 739495 739524 = 1
      ∧ (calculate_for_employee db10 emp10 2025 9).1.deductions = 200
      ∧ quantize2 ((2200 : ℚ) * 1 / 22) = 100 := by
  refine ⟨?_, ?_, ?_, ?_, ?_⟩ <;> with_unfolding_all rfl

/-! ## C4: characterization of the leave walk -/

/-- The number of days of `[s, s+n)` counted by the walk's condition. -/
def countedDays (first last s e : ℕ) : ℕ :=
  ((Finset.Ico s e).filter (fun d => first ≤ d ∧ d ≤ last ∧ weekday d < 5)).card

/-- Splitting off the first day of a counted interval. -/
theorem countedDays_succ (first last s n : ℕ) :
    countedDays first last s (s + (n + 1))
      = (if first ≤ s ∧ s ≤ last ∧ weekday s < 5 then 1 else 0)
        + countedDays first last (s + 1) (s + 1 + n) := by
  unfold countedDays
  have h : Finset.Ico s (s + (n + 1)) = insert s (Finset.Ico (s + 1) (s + 1 + n)) := by
    ext d
    simp only [Finset.mem_Ico, Finset.mem_insert]
    omega
  rw [h, Finset.filter_insert]
  split_ifs with hp
  · have hnot : s ∉ (Finset.Ico (s + 1) (s + 1 + n)).filter
        (fun d => first ≤ d ∧ d ≤ last ∧ weekday d < 5) := by
      simp only [Finset.mem_filter, Finset.mem_Ico]
      omega
    rw [Finset.card_insert_of_not_mem hnot]
    omega
  · omega

/-- The per-leave walk loop counts the filtered days of `[s, s+n)`:
those inside the month bounds whose weekday is Monday–Friday, the unpaid
counter following the total counter exactly when `u` is set. -/
theorem leaveWalkGo_spec (first last : ℕ) (u : Bool) (n : ℕ) :
    ∀ s a b, leaveWalkGo first last u n s (a, b)
      = (a + countedDays first last s (s + n),
         b + if u then countedDays first last s (s + n) else 0) := by
  induction n with
  | zero =>
    intro s a b
    show (a, b) = _
    have h0 : countedDays first last s (s + 0) = 0 := by
      unfold countedDays
      rw [Nat.add_zero, Finset.Ico_self, Finset.filter_empty, Finset.card_empty]
    rw [h0]
    cases u <;> simp
  | succ n ih =>
    intro s a b
    rw [leaveWalkGo, countedDays_succ]
    by_cases hc : first ≤ s ∧ s ≤ last ∧ weekday s < 5
    · simp only [if_pos hc]
      rw [ih]
      cases u <;> simp [Prod.ext_iff] <;> omega
    · simp only [if_neg hc]
      rw [ih]
      cases u <;> simp [Prod.ext_iff]

/-- The contribution of one leave row with present dates: the number of
working days of its own range that fall inside the month, and the same count
for the unpaid counter exactly when its type is an unpaid category. -/
theorem walk_leave_spec (first last : ℕ) (lv : Leave) (f t : ℕ)
    (hf : lv.from_date = some f) (ht : lv.to_date = some t) :
    walk_leave first last lv
      = (((Finset.Icc f t).filter
            (fun d => first ≤ d ∧ d ≤ last ∧ weekday d < 5)).card,
         if isUnpaidType lv.leave_type then
           ((Finset.Icc f t).filter
            (fun d => first ≤ d ∧ d ≤ last ∧ weekday d < 5)).card
         else 0) := by
  unfold walk_leave
  rw [hf]
  simp only [ht, Option.getD_some]
  rw [leaveWalkGo_spec]
  have hicc : countedDays first last f (f + (t + 1 - f))
      = ((Finset.Icc f t).filter
          (fun d => first ≤ d ∧ d ≤ last ∧ weekday d < 5)).card := by
    unfold countedDays
    rcases le_or_lt f t with h | h
    · have he : f + (t + 1 - f) = t + 1 := by omega
      have hio : Finset.Ico f (t + 1) = Finset.Icc f t := by
        ext x
        simp only [Finset.mem_Ico, Finset.mem_Icc]
        omega
      rw [he, hio]
    · have he : f + (t + 1 - f) = f := by omega
      have h2 : Finset.Icc f t = ∅ := Finset.Icc_eq_empty (by omega)
      rw [he, Finset.Ico_self, h2]
  rw [hicc]
  simp

/-- Folding pairwise sums over a list is the pair of mapped sums. -/
theorem foldl_pair_add (g : Leave → ℕ × ℕ) (l : List Leave) :
    ∀ a b, l.foldl (fun acc lv => (acc.1 + (g lv).1, acc.2 + (g lv).2)) (a, b)
      = (a + (l.map (fun lv => (g lv).1)).sum, b + (l.map (fun lv => (g lv).2)).sum) := by
  induction l with
  | nil => intro a b; simp
  | cons x xs ih =>
    intro a b
    simp only [List.foldl_cons, List.map_cons, List.sum_cons, ih, Prod.mk.injEq]
    constructor <;> omega

/-- C4: the leave aggregation considers exactly the approved leave rows of the
employee whose `[from_date, to_date]` interval overlaps `[first, last]`
(`leaveFilter`), and for each such row adds the number of days of the leave's
own range that lie inside the month bounds and fall Monday–Friday; the unpaid
counter receives the same per-row count exactly when the row's type, lowered,
is one of "unpaid", "lop", "without pay" (`isUnpaidType`). -/
theorem collect_leave_days_characterization (db : DB) (eid first last : ℕ) :
    collect_leave_days db eid first last
      = (((db.leaves.filter (leaveFilter eid first last)).map
            (fun lv =>
              match lv.from_date, lv.to_date with
              | some f, some t =>
                ((Finset.Icc f t).filter
                  (fun d => first ≤ d ∧ d ≤ last ∧ weekday d < 5)).card
              | _, _ => 0)).sum,
         ((db.leaves.filter (leaveFilter eid first last)).map
            (fun lv =>
              if isUnpaidType lv.leave_type then
                match lv.from_date, lv.to_date with
                | some f, some t =>
                  ((Finset.Icc f t).filter
                    (fun d => first ≤ d ∧ d ≤ last ∧ weekday d < 5)).card
                | _, _ => 0
              else 0)).sum) := by
  unfold collect_leave_days
  rw [foldl_pair_add (walk_leave first last)]
  have hmem : ∀ lv ∈ db.leaves.filter (leaveFilter eid first last),
      ∃ f t, lv.from_date = some f ∧ lv.to_date = some t := by
    intro lv hlv
    have hp := (List.mem_filter.mp hlv).2
    unfold leaveFilter at hp
    cases hfrom : lv.from_date with
    | none => rw [hfrom] at hp; simp at hp
    | some f =>
      cases hto : lv.to_date with
      | none => rw [hfrom, hto] at hp; simp at hp
      | some t => exact ⟨f, t, rfl, rfl⟩
  simp only [Prod.mk.injEq, Nat.zero_add]
  constructor
  · refine congrArg List.sum (List.map_congr_left ?_)
    intro lv hlv
    obtain ⟨f, t, hf, ht⟩ := hmem lv hlv
    rw [walk_leave_spec first last lv f t hf ht]
    simp [hf, ht]
  · refine congrArg List.sum (List.map_congr_left ?_)
    intro lv hlv
    obtain ⟨f, t, hf, ht⟩ := hmem lv hlv
    rw [walk_leave_spec first last lv f t hf ht]
    simp [hf, ht]

/-! ## Upsert lemmas (C2, C8) -/

theorem replaceFirst_filter_length (p : Salary → Bool) (v : Salary)
    (hv : p v = true) :
    ∀ l : List Salary, ((replaceFirst p v l).filter p).length = (l.filter p).length := by
  intro l
  induction l with
  | nil => rfl
  | cons r rs ih =>
    show ((if p r then v :: rs else r :: replaceFirst p v rs).filter p).length = _
    by_cases hr : p r = true
    · rw [if_pos hr]
      simp [List.filter_cons, hr, hv]
    · rw [if_neg hr]
      simp [List.filter_cons, hr, ih]

theorem find?_replaceFirst (p : Salary → Bool) (v : Salary) (hv : p v = true) :
    ∀ l (a : Salary), l.find? p = some a → (replaceFirst p v l).find? p = some v := by
  intro l
  induction l with
  | nil => intro a h; simp at h
  | cons r rs ih =>
    intro a h
    show (if p r then v :: rs else r :: replaceFirst p v rs).find? p = some v
    by_cases hr : p r = true
    · rw [if_pos hr]
      simp [List.find?_cons, hv]
    · rw [if_neg hr]
      rw [List.find?_cons_of_neg _ (by simp [hr])]
      rw [List.find?_cons_of_neg _ (by simp [hr])] at h
      exact ih a h

/-- `calculate_for_employee` never touches the attendance, leave or employee
tables. -/
theorem calc_preserves_tables (db : DB) (emp : Employee) (year month : ℕ) :
    (calculate_for_employee db emp year month).2.attendance = db.attendance
      ∧ (calculate_for_employee db emp year month).2.leaves = db.leaves
      ∧ (calculate_for_employee db emp year month).2.employees = db.employees := by
  unfold calculate_for_employee
  cases h : db.salaries.find? (salaryKey emp.id (month_str year month)) <;> simp [h]

/-- The computed figures depend only on the attendance and leave tables. -/
theorem engine_figures_congr {db db' : DB} (emp : Employee) (year month : ℕ)
    (ha : db'.attendance = db.attendance) (hl : db'.leaves = db.leaves) :
    engine_figures db' emp year month = engine_figures db emp year month := by
  unfold engine_figures att_count collect_leave_days
  rw [ha, hl]

/-- Insert branch of the upsert: the new row is appended and matches the key. -/
theorem calc_upsert_insert (db : DB) (emp : Employee) (year month : ℕ)
    (h : db.salaries.find? (salaryKey emp.id (month_str year month)) = none) :
    (calculate_for_employee db emp year month).2.salaries
        = db.salaries ++ [(calculate_for_employee db emp year month).1]
      ∧ salaryKey emp.id (month_str year month)
          (calculate_for_employee db emp year month).1 = true := by
  unfold calculate_for_employee
  simp only [h]
  constructor
  · trivial
  · simp [salaryKey]

/-- Update branch of the upsert: the first matching row is replaced in place
and the returned row still matches the key. -/
theorem calc_upsert_update (db : DB) (emp : Employee) (year month : ℕ)
    (old : Salary)
    (h : db.salaries.find? (salaryKey emp.id (month_str year month)) = some old) :
    (calculate_for_employee db emp year month).2.salaries
        = replaceFirst (salaryKey emp.id (month_str year month))
            (calculate_for_employee db emp year month).1 db.salaries
      ∧ salaryKey emp.id (month_str year month)
          (calculate_for_employee db emp year month).1 = true := by
  have hold := List.find?_some h
  unfold calculate_for_employee
  simp only [h]
  constructor
  · trivial
  · unfold salaryKey at hold ⊢
    simpa using hold

/-- C8: when a row for `(employee_id, month)` exists, recomputation returns
that row with only the money fields overwritten — `id`, `employee_id`,
`month` and `slip_file` unchanged — and replaces only the first matching row
of the table; when no row exists, the newly created row has
`slip_file = none`. -/
theorem upsert_frame (db : DB) (emp : Employee) (year month : ℕ) :
    (∀ old : Salary,
        db.salaries.find? (salaryKey emp.id (month_str year month)) = some old →
          (calculate_for_employee db emp year month).1.id = old.id
        ∧ (calculate_for_employee db emp year month).1.employee_id = old.employee_id
        ∧ (calculate_for_employee db emp year month).1.month = old.month
        ∧ (calculate_for_employee db emp year month).1.slip_file = old.slip_file
        ∧ (calculate_for_employee db emp year month).2.salaries
            = replaceFirst (salaryKey emp.id (month_str year month))
                (calculate_for_employee db emp year month).1 db.salaries)
    ∧ (db.salaries.find? (salaryKey emp.id (month_str year month)) = none →
        (calculate_for_employee db emp year month).1.slip_file = none) := by
  constructor
  · intro old h
    unfold calculate_for_employee
    simp only [h]
    refine ⟨?_, ?_, ?_, ?_, ?_⟩ <;> trivial
  · intro h
    unfold calculate_for_employee
    simp only [h]

/-- Employee and databases of the C8 witness. -/
def emp8 : Employee := { id := 1, email := none, salary := some 1000 }

def old8 : Salary :=
  { id := 42, employee_id := 1, month := "2025-03", base_salary := 5,
    deductions := 6, net_salary := 7, slip_file := some "keep.pdf" }

def db8 : DB :=
  { attendance := [], leaves := [], employees := [emp8],
    salaries := [old8], next_id := 99 }

def db8e : DB := { db8 with salaries := [] }

/-- Witness for C8: updating the existing row of `db8` keeps id 42, the key
fields and the slip file, replacing only that row; inserting into the empty
`db8e` yields a null slip file. -/
theorem upsert_frame_witness :
    ((calculate_for_employee db8 emp8 2025 3).1.id = old8.id
      ∧ (calculate_for_employee db8 emp8 2025 3).1.employee_id = old8.employee_id
      ∧ (calculate_for_employee db8 emp8 2025 3).1.month = old8.month
      ∧ (calculate_for_employee db8 emp8 2025 3).1.slip_file = old8.slip_file
      ∧ (calculate_for_employee db8 emp8 2025 3).2.salaries
          = replaceFirst (salaryKey emp8.id (month_str 2025 3))
              (calculate_for_employee db8 emp8 2025 3).1 db8.salaries)
    ∧ (calculate_for_employee db8e emp8 2025 3).1.slip_file = none := by
  constructor
  · exact (upsert_frame db8 emp8 2025 3).1 old8 (by with_unfolding_all rfl)
  · exact (upsert_frame db8e emp8 2025 3).2 (by with_unfolding_all rfl)

/-- C2: rerunning the calculator for the same employee and month on the
database produced by a first run (attendance and leave tables unchanged)
yields the same persisted `base_salary`, `deductions` and `net_salary`, and —
given the at-most-one-row invariant for the `(employee_id, month)` key —
exactly one salary row exists for that key after both runs, the second run
having updated the first run's row in place. -/
theorem calculate_idempotent (db : DB) (emp : Employee) (year month : ℕ)
    (h : (db.salaries.filter (salaryKey emp.id (month_str year month))).length ≤ 1) :
    (calculate_for_employee (calculate_for_employee db emp year month).2
        emp year month).1.base_salary
        = (calculate_for_employee db emp year month).1.base_salary
    ∧ (calculate_for_employee (calculate_for_employee db emp year month).2
        emp year month).1.deductions
        = (calculate_for_employee db emp year month).1.deductions
    ∧ (calculate_for_employee (calculate_for_employee db emp year month).2
        emp year month).1.net_salary
        = (calculate_for_employee db emp year month).1.net_salary
    ∧ ((calculate_for_employee (calculate_for_employee db emp year month).2
        emp year month).2.salaries.filter
          (salaryKey emp.id (month_str year month))).length = 1 := by
  set db1 := (calculate_for_employee db emp year month).2 with hdb1
  have hpres := calc_preserves_tables db emp year month
  have hfig : engine_figures db1 emp year month = engine_figures db emp year month :=
    engine_figures_congr emp year month hpres.1 hpres.2.1
  have hm1 := calc_row_money db emp year month
  have hm2 := calc_row_money db1 emp year month
  refine ⟨?_, ?_, ?_, ?_⟩
  · rw [hm2.1, hm1.1, hfig]
  · rw [hm2.2.1, hm1.2.1, hfig]
  · rw [hm2.2.2, hm1.2.2, hfig]
  · cases hfind : db.salaries.find? (salaryKey emp.id (month_str year month)) with
    | none =>
      obtain ⟨hsal, hkey⟩ := calc_upsert_insert db emp year month hfind
      have hfilter0 : db.salaries.filter (salaryKey emp.id (month_str year month)) = [] := by
        rw [List.filter_eq_nil_iff]
        intro a ha
        have := List.find?_eq_none.mp hfind a ha
        simpa using this
      have hcount1 : (db1.salaries.filter
          (salaryKey emp.id (month_str year month))).length = 1 := by
        rw [hdb1, hsal, List.filter_append, hfilter0]
        simp [hkey]
      have hfind1 : db1.salaries.find? (salaryKey emp.id (month_str year month))
          = some (calculate_for_employee db emp year month).1 := by
        rw [hdb1, hsal, List.find?_append, hfind]
        simp [hkey]
      obtain ⟨hsal2, hkey2⟩ := calc_upsert_update db1 emp year month _ hfind1
      rw [hsal2, replaceFirst_filter_length _ _ hkey2, hcount1]
    | some old =>
      obtain ⟨hsal, hkey⟩ := calc_upsert_update db emp year month old hfind
      have hcount1 : (db1.salaries.filter
          (salaryKey emp.id (month_str year month))).length
          = (db.salaries.filter (salaryKey emp.id (month_str year month))).length := by
        rw [hdb1, hsal]
        exact replaceFirst_filter_length _ _ hkey _
      have hge : 1 ≤ (db.salaries.filter (salaryKey emp.id (month_str year month))).length := by
        have hmem := List.mem_of_find?_eq_some hfind
        have hpold := List.find?_some hfind
        have hin : old ∈ db.salaries.filter (salaryKey emp.id (month_str year month)) :=
          List.mem_filter.mpr ⟨hmem, hpold⟩
        exact List.length_pos_of_mem hin
      have hfind1 : db1.salaries.find? (salaryKey emp.id (month_str year month))
          = some (calculate_for_employee db emp year month).1 := by
        rw [hdb1, hsal]
        exact find?_replaceFirst _ _ hkey _ old hfind
      obtain ⟨hsal2, hkey2⟩ := calc_upsert_update db1 emp year month _ hfind1
      rw [hsal2, replaceFirst_filter_length _ _ hkey2, hcount1]
      omega

/-- Employee and database of the C2 witness. -/
def emp2w : Employee := { id := 1, email := none, salary := some 100 }

def db2w : DB :=
  { attendance := [], leaves := [], employees := [emp2w], salaries := [], next_id := 1 }

/-- Witness for C2 on an initially empty salary table. -/
theorem calculate_idempotent_witness :
    (calculate_for_employee (calculate_for_employee db2w emp2w 2025 3).2
        emp2w 2025 3).1.base_salary
        = (calculate_for_employee db2w emp2w 2025 3).1.base_salary
    ∧ (calculate_for_employee (calculate_for_employee db2w emp2w 2025 3).2
        emp2w 2025 3).1.deductions
        = (calculate_for_employee db2w emp2w 2025 3).1.deductions
    ∧ (calculate_for_employee (calculate_for_employee db2w emp2w 2025 3).2
        emp2w 2025 3).1.net_salary
        = (calculate_for_employee db2w emp2w 2025 3).1.net_salary
    ∧ ((calculate_for_employee (calculate_for_employee db2w emp2w 2025 3).2
        emp2w 2025 3).2.salaries.filter
          (salaryKey emp2w.id (month_str 2025 3))).length = 1 :=
  calculate_idempotent db2w emp2w 2025 3 (by with_unfolding_all decide)

/-! ## Runner lemmas (C6, C7) -/

/-- The row returned by the calculator belongs to the processed employee. -/
theorem calc_row_employee_id (db : DB) (emp : Employee) (year month : ℕ) :
    (calculate_for_employee db emp year month).1.employee_id = emp.id := by
  cases hfind : db.salaries.find? (salaryKey emp.id (month_str year month)) with
  | none =>
    unfold calculate_for_employee
    simp [hfind]
  | some old =>
    have hold := List.find?_some hfind
    simp only [salaryKey, Bool.and_eq_true, beq_iff_eq] at hold
    unfold calculate_for_employee
    simp [hfind, hold.1]

/-- Every branch of the loop body returns the processed employee's row
(with or without a slip filename), whatever the callbacks do. -/
theorem run_step_employee_id (year month : ℕ) (generate_pdf : Bool)
    (pdfg : Option PdfGen) (es : Option EmailSender)
    (st : DB × ℕ × List Event) (emp : Employee) :
    (run_step year month generate_pdf pdfg es st emp).1.employee_id = emp.id := by
  unfold run_step
  dsimp only
  split
  · split
    · exact calc_row_employee_id _ _ _ _
    · split
      · split
        · exact calc_row_employee_id _ _ _ _
        · exact calc_row_employee_id _ _ _ _
      · exact calc_row_employee_id _ _ _ _
  · exact calc_row_employee_id _ _ _ _

/-- Unrolling the runner's fold: results extend by one row per employee, in
order, each carrying that employee's id. -/
theorem engine_fold_map (year month : ℕ) (generate_pdf : Bool)
    (pdfg : Option PdfGen) (es : Option EmailSender) :
    ∀ (l : List Employee) (acc : RunState),
      ((l.foldl (engine_fold year month generate_pdf pdfg es) acc).1).map
          (fun r => r.employee_id)
        = acc.1.map (fun r => r.employee_id) ++ l.map (fun e => e.id) := by
  intro l
  induction l with
  | nil => intro acc; simp
  | cons e l ih =>
    intro acc
    rw [List.foldl_cons, ih]
    unfold engine_fold
    simp [run_step_employee_id]

/-- C6: for every database, month, and any pdf-generator and email-sender
callbacks — including ones that raise for some or all employees — the runner
returns exactly one salary row per employee of the employee table, in the
employees' iteration order (the i-th result belongs to the i-th employee). -/
theorem run_engine_processes_each (db : DB) (year month : ℕ)
    (generate_pdf : Bool) (pdfg : Option PdfGen) (es : Option EmailSender)
    (clock : ℕ) :
    ((run_engine_for_month db year month generate_pdf pdfg es clock).1).map
        (fun r => r.employee_id)
      = db.employees.map (fun e => e.id)
    ∧ (run_engine_for_month db year month generate_pdf pdfg es clock).1.length
      = db.employees.length := by
  have h := engine_fold_map year month generate_pdf pdfg es db.employees ([], db, clock, [])
  constructor
  · simpa [run_engine_for_month] using h
  · have h2 : ((run_engine_for_month db year month generate_pdf pdfg es clock).1).map
        (fun r => r.employee_id) = db.employees.map (fun e => e.id) := by
      simpa [run_engine_for_month] using h
    calc (run_engine_for_month db year month generate_pdf pdfg es clock).1.length
        = (((run_engine_for_month db year month generate_pdf pdfg es clock).1).map
            (fun r => r.employee_id)).length := (List.length_map _ _).symm
      _ = (db.employees.map (fun e => e.id)).length := by rw [h2]
      _ = db.employees.length := List.length_map _ _

/-- Employee, database and sender of the C7 counterexample. -/
def emp7 : Employee := { id := 1, email := some "a@b.c", salary := some 100 }

def db7 : DB :=
  { attendance := [], leaves := [], employees := [emp7], salaries := [], next_id := 1 }

def sender7 : EmailSender := fun _ _ _ _ => .ok ()

/-- C7 counterexample: an email sender is supplied and the employee has an
email address, but with `generate_pdf = False` the runner makes no
notification attempt at all (the email call sits inside the
`generate_pdf and callable(pdf_generator)` branch). -/
theorem email_skipped_without_pdf :
    emp7.email = some "a@b.c"
      ∧ (run_engine_for_month db7 2025 3 false none (some sender7) 0).2.2.2 = [] := by
  constructor
  · rfl
  · with_unfolding_all rfl

/-- C7 amended: for an employee processed by the runner with
`generate_pdf = True`, a supplied `pdf_generator` that returns successfully
for that employee's record, a supplied `email_sender`, and a non-empty email
address, the loop body ends by attempting to notify that address with an
attachment path. -/
theorem email_attempted_after_pdf (year month : ℕ) (g : PdfGen)
    (sender : EmailSender) (st : DB × ℕ × List Event) (emp : Employee)
    (addr : String) (res : PdfResult)
    (hmail : emp.email = some addr) (hne : addr ≠ "")
    (hg : g (calculate_for_employee st.1 emp year month).1 emp = .ok res) :
    ∃ pre subject body path,
      (run_step year month true (some g) (some sender) st emp).2.2.2
        = pre ++ [Event.emailAttempt addr subject body path] := by
  unfold run_step
  dsimp only
  rw [hg, hmail]
  cases res with
  | pair fname path =>
    simp only [bne_iff_ne, ne_eq, hne, not_false_eq_true, if_true]
    exact ⟨_, _, _, _, rfl⟩
  | bytes content =>
    simp only [bne_iff_ne, ne_eq, hne, not_false_eq_true, if_true]
    exact ⟨_, _, _, _, rfl⟩
  | other s0 =>
    simp only [bne_iff_ne, ne_eq, hne, not_false_eq_true, if_true]
    exact ⟨_, _, _, _, rfl⟩

/-- Generator of the C7 amended witness. -/
def gen7 : PdfGen := fun _ _ => .ok (.pair "slip.pdf" "p/slip.pdf")

/-- Witness for the amended C7 at a concrete employee, generator and sender. -/
theorem email_attempted_after_pdf_witness :
    ∃ pre subject body path,
      (run_step 2025 3 true (some gen7) (some sender7) (db7, 0, []) emp7).2.2.2
        = pre ++ [Event.emailAttempt "a@b.c" subject body path] :=
  email_attempted_after_pdf 2025 3 gen7 sender7 (db7, 0, []) emp7 "a@b.c"
    (.pair "slip.pdf" "p/slip.pdf") rfl (by decide) rfl

/-! ## Float rounding analysis (C3) -/

theorem natLog2Go_bounds :
    ∀ fuel n, 1 ≤ n → n ≤ fuel →
      2 ^ natLog2Go fuel n ≤ n ∧ n < 2 ^ (natLog2Go fuel n + 1) := by
  intro fuel
  induction fuel with
  | zero => intro n h1 h2; exact absurd h2 (by omega)
  | succ fuel ih =>
    intro n h1 h2
    show 2 ^ (if 2 ≤ n then natLog2Go fuel (n / 2) + 1 else 0) ≤ n
      ∧ n < 2 ^ ((if 2 ≤ n then natLog2Go fuel (n / 2) + 1 else 0) + 1)
    by_cases h : 2 ≤ n
    · rw [if_pos h]
      have hrec := ih (n / 2) (by omega) (by omega)
      constructor
      · rw [pow_succ]
        omega
      · rw [pow_succ, pow_succ]
        omega
    · rw [if_neg h]
      constructor
      · simpa using h1
      · have : n < 2 := by omega
        simpa using this

theorem natLog2_bounds (n : ℕ) (h : 1 ≤ n) :
    2 ^ natLog2 n ≤ n ∧ n < 2 ^ (natLog2 n + 1) :=
  natLog2Go_bounds n n h le_rfl

theorem pow2_add (a b : ℤ) : pow2 (a + b) = pow2 a * pow2 b := by
  rw [pow2_eq_zpow, pow2_eq_zpow, pow2_eq_zpow, zpow_add₀ (by norm_num : (2:ℚ) ≠ 0)]

theorem pow2_mono {a b : ℤ} (h : a ≤ b) : pow2 a ≤ pow2 b := by
  rw [pow2_eq_zpow, pow2_eq_zpow]
  exact zpow_le_zpow_right₀ (by norm_num) h

theorem pow2_natCast (n : ℕ) : pow2 (n : ℤ) = ((2 ^ n : ℕ) : ℚ) := rfl

/-- The corrected `natLog2`-difference really is `⌊log₂ a⌋`:
`2 ^ floorLog2 a ≤ a < 2 ^ (floorLog2 a + 1)` for positive `a`. -/
theorem floorLog2_bounds {a : ℚ} (ha : 0 < a) :
    pow2 (floorLog2 a) ≤ a ∧ a < pow2 (floorLog2 a + 1) := by
  have hnum : 0 < a.num := Rat.num_pos.mpr ha
  have hN : 1 ≤ a.num.natAbs := by omega
  have hD : 1 ≤ a.den := a.pos
  obtain ⟨hN1, hN2⟩ := natLog2_bounds a.num.natAbs hN
  obtain ⟨hD1, hD2⟩ := natLog2_bounds a.den hD
  have hz : a.num = (a.num.natAbs : ℤ) := (Int.natAbs_of_nonneg hnum.le).symm
  have hq : (a.num : ℚ) = ((a.num.natAbs : ℤ) : ℚ) := by rw [← hz]
  have hcastN : ((a.num.natAbs : ℚ)) = (a.num : ℚ) := by
    rw [hq, Int.cast_natCast]
  have haeq : a = ((a.num.natAbs : ℚ)) / ((a.den : ℚ)) := by
    rw [hcastN, Rat.num_div_den]
  have hdq : (0 : ℚ) < (a.den : ℚ) := by exact_mod_cast hD
  set Ln := natLog2 a.num.natAbs with hLn
  set Ld := natLog2 a.den with hLd
  -- a < 2 ^ (Ln + 1 - Ld), always
  have hupper : a < pow2 ((Ln : ℤ) + 1 - Ld) := by
    have hmul : (a.num.natAbs : ℚ) * ((2 ^ Ld : ℕ) : ℚ)
        < ((2 ^ (Ln + 1) : ℕ) : ℚ) * (a.den : ℚ) := by
      have hnat : a.num.natAbs * 2 ^ Ld < 2 ^ (Ln + 1) * a.den := by
        calc a.num.natAbs * 2 ^ Ld < 2 ^ (Ln + 1) * 2 ^ Ld :=
              mul_lt_mul_of_pos_right hN2 (Nat.pos_pow_of_pos _ (by norm_num))
          _ ≤ 2 ^ (Ln + 1) * a.den := mul_le_mul_left' hD1 _
      exact_mod_cast hnat
    have hsplit : pow2 ((Ln : ℤ) + 1 - Ld)
        = ((2 ^ (Ln + 1) : ℕ) : ℚ) / ((2 ^ Ld : ℕ) : ℚ) := by
      have heq : ((Ln : ℤ) + 1 - Ld) + (Ld : ℤ) = ((Ln + 1 : ℕ) : ℤ) := by
        push_cast
        ring
      have h2 : pow2 (((Ln : ℤ) + 1 - Ld) + (Ld : ℤ))
          = pow2 ((Ln : ℤ) + 1 - Ld) * pow2 (Ld : ℤ) := pow2_add _ _
      rw [heq, pow2_natCast] at h2
      rw [eq_div_iff (by positivity : ((2 ^ Ld : ℕ) : ℚ) ≠ 0), ← pow2_natCast]
      exact h2.symm
    rw [haeq, hsplit, div_lt_div_iff hdq (by positivity)]
    exact hmul
  -- 2 ^ (Ln - Ld - 1) ≤ a, always
  have hlower : pow2 ((Ln : ℤ) - Ld - 1) ≤ a := by
    have hmul : ((2 ^ Ln : ℕ) : ℚ) * (a.den : ℚ)
        ≤ (a.num.natAbs : ℚ) * ((2 ^ (Ld + 1) : ℕ) : ℚ) := by
      have hnat : 2 ^ Ln * a.den ≤ a.num.natAbs * 2 ^ (Ld + 1) := by
        calc 2 ^ Ln * a.den ≤ a.num.natAbs * a.den := mul_le_mul_right' hN1 _
          _ ≤ a.num.natAbs * 2 ^ (Ld + 1) := mul_le_mul_left' (le_of_lt hD2) _
      exact_mod_cast hnat
    have hsplit : pow2 ((Ln : ℤ) - Ld - 1)
        = ((2 ^ Ln : ℕ) : ℚ) / ((2 ^ (Ld + 1) : ℕ) : ℚ) := by
      have heq : ((Ln : ℤ) - Ld - 1) + ((Ld + 1 : ℕ) : ℤ) = ((Ln : ℕ) : ℤ) := by
        push_cast
        ring
      have h2 : pow2 (((Ln : ℤ) - Ld - 1) + ((Ld + 1 : ℕ) : ℤ))
          = pow2 ((Ln : ℤ) - Ld - 1) * pow2 ((Ld + 1 : ℕ) : ℤ) := pow2_add _ _
      rw [heq, pow2_natCast] at h2
      rw [eq_div_iff (by positivity : ((2 ^ (Ld + 1) : ℕ) : ℚ) ≠ 0), ← pow2_natCast]
      exact h2.symm
    rw [haeq, hsplit, div_le_div_iff (by positivity) hdq]
    exact hmul
  unfold floorLog2
  rw [← hLn, ← hLd]
  dsimp only
  by_cases hbr : pow2 ((Ln : ℤ) - Ld) ≤ a
  · rw [if_pos hbr]
    refine ⟨hbr, ?_⟩
    have : (Ln : ℤ) - Ld + 1 = (Ln : ℤ) + 1 - Ld := by ring
    rw [this]
    exact hupper
  · rw [if_neg hbr]
    refine ⟨?_, ?_⟩
    · have : (Ln : ℤ) - Ld - 1 = (Ln : ℤ) - (Ld : ℤ) - 1 := by ring
      exact hlower
    · have : (Ln : ℤ) - Ld - 1 + 1 = (Ln : ℤ) - Ld := by ring
      rw [this]
      exact lt_of_not_le hbr

/-- Round-half-even lands within half a unit of its argument. -/
theorem roundHalfEvenZ_err (x : ℚ) : |(roundHalfEvenZ x : ℚ) - x| ≤ 1 / 2 := by
  unfold roundHalfEvenZ
  simp only [ratFloor_eq_floor]
  have h1 : (⌊x⌋ : ℚ) ≤ x := Int.floor_le x
  have h2 : x < ⌊x⌋ + 1 := Int.lt_floor_add_one x
  split_ifs with ha hb hc <;> rw [abs_le] <;> constructor <;> push_cast <;> linarith

/-- The float approximation of a positive rational is off by at most half an
ulp: `2 ^ (⌊log₂ q⌋ - 53)`. -/
theorem float64round_err {q : ℚ} (hq : 0 < q) :
    |float64round q - q| ≤ pow2 (floorLog2 q - 53) := by
  have habs : |q| = q := abs_of_pos hq
  have hkey : float64round q
      = (roundHalfEvenZ (q * pow2 (52 - floorLog2 q)) : ℚ)
        * pow2 (floorLog2 q - 52) := by
    unfold float64round
    rw [if_neg (ne_of_gt hq), if_neg (not_lt.mpr hq.le), habs, one_mul]
  have hinv : pow2 (52 - floorLog2 q) * pow2 (floorLog2 q - 52) = 1 := by
    rw [← pow2_add]
    norm_num
    rfl
  have hfactor : float64round q - q
      = ((roundHalfEvenZ (q * pow2 (52 - floorLog2 q)) : ℚ)
          - q * pow2 (52 - floorLog2 q)) * pow2 (floorLog2 q - 52) := by
    rw [hkey]
    have : q * (pow2 (52 - floorLog2 q) * pow2 (floorLog2 q - 52)) = q := by
      rw [hinv, mul_one]
    nlinarith [this]
  rw [hfactor, abs_mul, abs_of_pos (pow2_pos (floorLog2 q - 52))]
  have herr := roundHalfEvenZ_err (q * pow2 (52 - floorLog2 q))
  have hp := pow2_pos (floorLog2 q - 52)
  have hstep : |(roundHalfEvenZ (q * pow2 (52 - floorLog2 q)) : ℚ)
        - q * pow2 (52 - floorLog2 q)| * pow2 (floorLog2 q - 52)
      ≤ (1 / 2) * pow2 (floorLog2 q - 52) :=
    mul_le_mul_of_nonneg_right herr hp.le
  have hhalf : (1 / 2 : ℚ) * pow2 (floorLog2 q - 52) = pow2 (floorLog2 q - 53) := by
    have hsplit53 : floorLog2 q - 53 = (-1) + (floorLog2 q - 52) := by ring
    have hm1 : pow2 (-1) = 1 / 2 := by with_unfolding_all rfl
    rw [hsplit53, pow2_add, hm1]
  rw [hhalf] at hstep
  exact hstep

/-- `quantize2` at a nonnegative argument: a multiple of 0.01, within half a
cent, ties pushed upward (the error is in `(-1/200, 1/200]`). -/
theorem quantize2_char {q : ℚ} (hq : 0 ≤ q) :
    (∃ k : ℤ, quantize2 q = (k : ℚ) / 100)
      ∧ -(1 : ℚ) / 200 < quantize2 q - q ∧ quantize2 q - q ≤ 1 / 200 := by
  unfold quantize2 roundHalfUpZ
  rw [if_pos (by positivity : (0 : ℚ) ≤ q * 100), ratFloor_eq_floor]
  have h1 : (⌊q * 100 + 1 / 2⌋ : ℚ) ≤ q * 100 + 1 / 2 := Int.floor_le _
  have h2 : q * 100 + 1 / 2 - 1 < ⌊q * 100 + 1 / 2⌋ := Int.sub_one_lt_floor _
  refine ⟨⟨⌊q * 100 + 1 / 2⌋, rfl⟩, ?_, ?_⟩ <;> linarith

/-- `quantize2` is the identity on multiples of 0.01. -/
theorem quantize2_cent {x : ℚ} (hx : ∃ k : ℤ, x = (k : ℚ) / 100) :
    quantize2 x = x := by
  obtain ⟨k, hk⟩ := hx
  subst hk
  unfold quantize2 roundHalfUpZ
  have hmul : (k : ℚ) / 100 * 100 = (k : ℚ) := by
    field_simp
  rw [hmul]
  simp only [ratFloor_eq_floor]
  have hhalf : ⌊(1 : ℚ) / 2⌋ = 0 := by
    rw [Int.floor_eq_zero_iff]
    constructor <;> norm_num
  by_cases hk0 : (0 : ℚ) ≤ (k : ℚ)
  · rw [if_pos hk0]
    have : ⌊(k : ℚ) + 1 / 2⌋ = k + ⌊(1 : ℚ) / 2⌋ := by
      rw [add_comm, Int.floor_add_int]
      ring
    rw [this, hhalf, add_zero]
  · rw [if_neg hk0]
    have : ⌊-(k : ℚ) + 1 / 2⌋ = -k + ⌊(1 : ℚ) / 2⌋ := by
      rw [add_comm, show -(k : ℚ) = ((-k : ℤ) : ℚ) by push_cast; ring,
        Int.floor_add_int]
      ring
    rw [this, hhalf, add_zero, neg_neg]

/-- Round trip of an in-range cent amount through `float()` and the
`DECIMAL(10,2)` column: the persisted value is the original amount. -/
theorem column_decimal_id {d : ℚ} (h0 : 0 ≤ d)
    (hcent : ∃ k : ℤ, d = (k : ℚ) / 100) (hrange : d < pow2 27) :
    column_decimal d = d := by
  rcases eq_or_lt_of_le h0 with h | hpos
  · rw [← h]
    with_unfolding_all rfl
  · obtain ⟨k, hk⟩ := hcent
    -- exponent bound: floorLog2 d ≤ 26
    have hb := floorLog2_bounds hpos
    have he : floorLog2 d ≤ 26 := by
      by_contra hcon
      push_neg at hcon
      have h27 : (27 : ℤ) ≤ floorLog2 d := by omega
      have := le_trans (pow2_mono h27) hb.1
      linarith
    -- error bound
    have herr := float64round_err hpos
    have herr27 : |float64round d - d| ≤ pow2 (-27) := by
      refine le_trans herr (pow2_mono (by omega))
    have hp27 : pow2 (-27 : ℤ) = 1 / 134217728 := by
      with_unfolding_all rfl
    rw [hp27] at herr27
    have habs := abs_le.mp herr27
    have hv0 : 0 ≤ float64round d := float64round_nonneg h0
    -- quantize the float back
    unfold column_decimal quantize2 roundHalfUpZ
    rw [if_pos (by positivity : (0 : ℚ) ≤ float64round d * 100), ratFloor_eq_floor]
    have hδ : float64round d * 100 = (k : ℚ) + (float64round d - d) * 100 := by
      rw [hk]
      ring
    have hfloor : ⌊float64round d * 100 + 1 / 2⌋ = k := by
      rw [hδ]
      have : (k : ℚ) + (float64round d - d) * 100 + 1 / 2
          = ((float64round d - d) * 100 + 1 / 2) + (k : ℚ) := by ring
      rw [this, Int.floor_add_int]
      have hz : ⌊(float64round d - d) * 100 + 1 / 2⌋ = 0 := by
        rw [Int.floor_eq_zero_iff, Set.mem_Ico]
        constructor
        · linarith [habs.1]
        · linarith [habs.2]
      rw [hz, zero_add]
    rw [hfloor, hk]

theorem salary_core_deduction (base : ℚ) (total paid uld : ℕ) :
    (salary_core base total paid uld).deduction
      = if 0 < total then quantize2 (base * (uld : ℚ) / (total : ℚ)) else 0 := by
  unfold salary_core
  dsimp only
  split_ifs <;> rfl

theorem salary_core_earned (base : ℚ) (total paid uld : ℕ) :
    (salary_core base total paid uld).earned
      = if 0 < total then quantize2 (base * (paid : ℚ) / (total : ℚ)) else base := by
  unfold salary_core
  dsimp only
  split_ifs <;> rfl

theorem salary_core_net (base : ℚ) (total paid uld : ℕ) :
    (salary_core base total paid uld).net_salary
      = if quantize2 ((salary_core base total paid uld).earned
            - (salary_core base total paid uld).deduction) < 0 then 0
        else quantize2 ((salary_core base total paid uld).earned
            - (salary_core base total paid uld).deduction) := by
  unfold salary_core
  dsimp only

/-- C3: the engine's monetary figures are exact-decimal quantities rounded
half-up at two decimal places — each is a multiple of 0.01 whose signed error
against the exact pro-rated ratio lies in `(-1/200, 1/200]`, which forces
round-half-up (half-to-even or truncation would allow error `-1/200`) — the
net is the exact clamped difference of the rounded figures, and the values
persisted on the returned row through `float()` and the `DECIMAL(10,2)`
column equal those decimal results exactly, for every in-range base salary. -/
theorem money_decimal_rounding_and_persistence
    (db : DB) (emp : Employee) (year month : ℕ)
    (total : ℕ) (lds : ℕ × ℕ) (paid : ℕ) (base : ℚ)
    (htotal : total = count_working_days (first_last_day year month).1
        (first_last_day year month).2)
    (hlds : lds = collect_leave_days db emp.id (first_last_day year month).1
        (first_last_day year month).2)
    (hpaid : paid = paid_days_calc
        (att_count db emp.id (first_last_day year month).1
          (first_last_day year month).2)
        lds.1 lds.2 total)
    (hbase : base = emp.salary.getD 0)
    (h0 : 0 ≤ base)
    (hcent : ∃ k : ℤ, base = (k : ℚ) / 100)
    (hrange : base ≤ 9999999999 / 100)
    (hduld : 0 < total → base * (lds.2 : ℚ) ≤ 9999999999 / 100 * (total : ℚ)) :
    (0 < total →
       ((∃ k : ℤ, (engine_figures db emp year month).2.deduction = (k : ℚ) / 100)
        ∧ -(1 : ℚ) / 200 < (engine_figures db emp year month).2.deduction
            - base * (lds.2 : ℚ) / (total : ℚ)
        ∧ (engine_figures db emp year month).2.deduction
            - base * (lds.2 : ℚ) / (total : ℚ) ≤ 1 / 200)
       ∧ ((∃ k : ℤ, (engine_figures db emp year month).2.earned = (k : ℚ) / 100)
        ∧ -(1 : ℚ) / 200 < (engine_figures db emp year month).2.earned
            - base * (paid : ℚ) / (total : ℚ)
        ∧ (engine_figures db emp year month).2.earned
            - base * (paid : ℚ) / (total : ℚ) ≤ 1 / 200))
    ∧ (engine_figures db emp year month).2.net_salary
        = (if (engine_figures db emp year month).2.earned
             - (engine_figures db emp year month).2.deduction < 0 then 0
           else (engine_figures db emp year month).2.earned
             - (engine_figures db emp year month).2.deduction)
    ∧ ((calculate_for_employee db emp year month).1.base_salary = base
       ∧ (calculate_for_employee db emp year month).1.deductions
           = (engine_figures db emp year month).2.deduction
       ∧ (calculate_for_employee db emp year month).1.net_salary
           = (engine_figures db emp year month).2.net_salary) := by
  have hfig2 : (engine_figures db emp year month).2
      = salary_core base total paid lds.2 := by
    rw [hbase, hpaid, hlds, htotal]
    rfl
  have hfig1 : (engine_figures db emp year month).1 = base := by
    rw [hbase]
    rfl
  set c := salary_core base total paid lds.2 with hcdef
  have hDeq := salary_core_deduction base total paid lds.2
  have hEeq := salary_core_earned base total paid lds.2
  have hNeq := salary_core_net base total paid lds.2
  have hpaidle : paid ≤ total := by
    rw [hpaid]
    exact min_le_right _ _
  have hrawd0 : 0 ≤ base * (lds.2 : ℚ) / (total : ℚ) :=
    div_nonneg (mul_nonneg h0 (Nat.cast_nonneg _)) (Nat.cast_nonneg _)
  have hrawe0 : 0 ≤ base * (paid : ℚ) / (total : ℚ) :=
    div_nonneg (mul_nonneg h0 (Nat.cast_nonneg _)) (Nat.cast_nonneg _)
  have h227 : pow2 27 = 134217728 := by with_unfolding_all rfl
  -- deduction: multiple of a cent
  have hDcent : ∃ k : ℤ, c.deduction = (k : ℚ) / 100 := by
    rw [hDeq]
    split_ifs with ht
    · exact (quantize2_char hrawd0).1
    · exact ⟨0, by norm_num⟩
  -- earned: multiple of a cent
  have hEcent : ∃ k : ℤ, c.earned = (k : ℚ) / 100 := by
    rw [hEeq]
    split_ifs with ht
    · exact (quantize2_char hrawe0).1
    · exact hcent
  obtain ⟨kd, hkd⟩ := hDcent
  obtain ⟨ke, hke⟩ := hEcent
  have hdiff : c.earned - c.deduction = ((ke - kd : ℤ) : ℚ) / 100 := by
    rw [hkd, hke]
    push_cast
    ring
  have hnet2 : c.net_salary
      = if c.earned - c.deduction < 0 then 0 else c.earned - c.deduction := by
    rw [hNeq, quantize2_cent ⟨ke - kd, hdiff⟩]
  -- nonnegativity and range of the three stored quantities
  have hD0 : 0 ≤ c.deduction := by
    rw [hDeq]
    split_ifs with ht
    · exact quantize2_nonneg hrawd0
    · exact le_refl 0
  have hE0 : 0 ≤ c.earned := by
    rw [hEeq]
    split_ifs with ht
    · exact quantize2_nonneg hrawe0
    · exact h0
  have hEle : c.earned ≤ base + 1 / 200 := by
    rw [hEeq]
    split_ifs with ht
    · have hchar := quantize2_char hrawe0
      have htq : (0 : ℚ) < (total : ℚ) := by exact_mod_cast ht
      have hple : (paid : ℚ) ≤ (total : ℚ) := by exact_mod_cast hpaidle
      have hre : base * (paid : ℚ) / (total : ℚ) ≤ base := by
        rw [div_le_iff htq]
        nlinarith
      linarith [hchar.2.2]
    · linarith
  have hDlt : c.deduction < pow2 27 := by
    rw [h227, hDeq]
    split_ifs with ht
    · have hchar := quantize2_char hrawd0
      have htq : (0 : ℚ) < (total : ℚ) := by exact_mod_cast ht
      have hraw_le : base * (lds.2 : ℚ) / (total : ℚ) ≤ 9999999999 / 100 := by
        rw [div_le_iff htq]
        exact hduld ht
      linarith [hchar.2.2]
    · norm_num
  have hN0 : 0 ≤ c.net_salary := salary_core_net_nonneg base total paid lds.2
  have hNcent : ∃ k : ℤ, c.net_salary = (k : ℚ) / 100 := by
    rw [hnet2]
    split_ifs with hneg
    · exact ⟨0, by norm_num⟩
    · exact ⟨ke - kd, hdiff⟩
  have hNlt : c.net_salary < pow2 27 := by
    rw [hnet2, h227]
    split_ifs with hneg
    · norm_num
    · linarith [hEle, hD0, hrange]
  have hbaselt : base < pow2 27 := by
    rw [h227]
    linarith [hrange]
  have hm := calc_row_money db emp year month
  refine ⟨?_, ?_, ?_⟩
  · intro ht
    rw [hfig2, hDeq, hEeq, if_pos ht, if_pos ht]
    exact ⟨quantize2_char hrawd0, quantize2_char hrawe0⟩
  · rw [hfig2]
    exact hnet2
  · refine ⟨?_, ?_, ?_⟩
    · rw [hm.1, hfig1]
      exact column_decimal_id h0 hcent hbaselt
    · rw [hm.2.1, hfig2]
      exact column_decimal_id hD0 ⟨kd, hkd⟩ hDlt
    · rw [hm.2.2, hfig2]
      exact column_decimal_id hN0 hNcent hNlt

/-- Employee and database of the C3 witness: salary 30000, one approved
single-day unpaid leave on Monday 2025-09-01, no attendance. -/
def emp3 : Employee := { id := 1, email := none, salary := some 30000 }

def db3 : DB :=
  { attendance := []
    leaves := [ { employee_id := 1, leave_type := some "Unpaid",
                  from_date := some 739495, to_date := some 739495,
                  status := "Approved" } ]
    employees := [emp3]
    salaries := []
    next_id := 1 }

/-- Witness for C3 at September 2025 (22 working days, 1 unpaid day,
0 paid days): the persisted row equals the decimal figures. -/
theorem money_decimal_rounding_and_persistence_witness :
    (calculate_for_employee db3 emp3 2025 9).1.base_salary = 30000
    ∧ (calculate_for_employee db3 emp3 2025 9).1.deductions
        = (engine_figures db3 emp3 2025 9).2.deduction
    ∧ (calculate_for_employee db3 emp3 2025 9).1.net_salary
        = (engine_figures db3 emp3 2025 9).2.net_salary :=
  (money_decimal_rounding_and_persistence db3 emp3 2025 9 22 (1, 1) 0 30000
    (by with_unfolding_all rfl) (by with_unfolding_all rfl)
    (by with_unfolding_all rfl) rfl
    (by norm_num) ⟨3000000, by norm_num⟩ (by norm_num)
    (fun _ => by norm_num)).2.2

end OfficeMgmt
